import Mathlib

/-!
Verification development for the tempo-tracker CLI.

This file shallowly embeds the session-tracking state machine and the sync
reconciler of `src/commands.ts` (with the daemon liveness probe of
`src/daemon/client.ts`) as pure Lean functions, and proves the behavioural
claims about them.  Timestamps are modelled as natural numbers of
milliseconds since the epoch; the mutable module state (the stored config,
the activity log and the three timer handles) is threaded explicitly as a
`LocalState` value.
-/

namespace Tempo

/-- The `activeTracking` record stored in the config by `startTracking`
(`commands.ts`, lines 186-195).  `issueId = 0` is the stored sentinel for
"no issue id" (`options.issueId || 0`). -/
structure ActiveTracking where
  branch : String
  directory : String
  startTime : Nat
  issueId : Nat
  description : Option String
deriving Repr, DecidableEq, Inhabited

/-- One activity-log entry, as appended by `stopTracking` and
`checkCurrentBranch` and consumed by `syncTempo`.  The store
(`addActivityLog` in the missing `src/config.ts`) is modelled from the
spec: append assigns a fresh unique `id` and `synced = false`. -/
structure ActivityLogEntry where
  id : Nat
  branch : String
  directory : String
  startTime : Nat
  endTime : Option Nat
  issueId : Nat
  description : Option String
  synced : Bool
deriving Repr, DecidableEq, Inhabited

/-- The state visible to the local (non-daemon) command path: the persisted
config fields read by the commands, plus the three module-level timer
handles of `commands.ts` (`activeCheckInterval`, `activePulseInterval`,
`autoStopTimer`), each modelled by whether it is currently set. -/
structure LocalState where
  apiKey : Option String
  jiraAccountId : Option String
  activeTracking : Option ActiveTracking
  activityLog : List ActivityLogEntry
  branchChecksActive : Bool
  pulseActive : Bool
  autoStopDeadline : Option Nat
deriving Repr, DecidableEq, Inhabited

/-- A state with nothing configured and nothing tracked. -/
def emptyLocalState : LocalState :=
  { apiKey := none, jiraAccountId := none, activeTracking := none,
    activityLog := [], branchChecksActive := false, pulseActive := false,
    autoStopDeadline := none }

/-- `MAX_TRACKING_TIME_MS` (`commands.ts`, line 40): 8 hours. -/
def maxTrackingTimeMs : Nat := 8 * 60 * 60 * 1000

/-- `PULSE_INTERVAL_MS` (`commands.ts`, line 43): 5 minutes. -/
def pulseIntervalMs : Nat := 5 * 60 * 1000

/-- The activity-log entry closing the current segment at `now`
(the object passed to `addActivityLog` in `stopTracking`, lines 255-262,
and `checkCurrentBranch`, lines 717-724); the store assigns the id, here
modelled as the current log length. -/
def closeSegment (tr : ActiveTracking) (now : Nat) (id : Nat) : ActivityLogEntry :=
  { id := id, branch := tr.branch, directory := tr.directory,
    startTime := tr.startTime, endTime := some now,
    issueId := tr.issueId, description := tr.description, synced := false }

/-- Local `stopTracking` (`commands.ts`, lines 240-279): if no active
session, do nothing; otherwise append the closed segment `[startTime, now)`
to the activity log, clear `activeTracking`, and cancel the branch-check
interval, the pulse interval and the auto-stop timer. -/
def stopTracking (s : LocalState) (now : Nat) : LocalState :=
  match s.activeTracking with
  | none => s
  | some tr =>
    { s with
      activityLog := s.activityLog ++ [closeSegment tr now s.activityLog.length],
      activeTracking := none,
      branchChecksActive := false,
      pulseActive := false,
      autoStopDeadline := none }

/-- The tail of local `startTracking` (`commands.ts`, lines 182-215): record
`activeTracking` with `segmentStart = now` and `issueId = options.issueId || 0`,
start the branch-check interval and pulse interval, and schedule the
auto-stop timer at `now + MAX_TRACKING_TIME_MS`. -/
def beginSession (s : LocalState) (branch dir : String) (now : Nat)
    (issueId : Option Nat) (descr : Option String) : LocalState :=
  { s with
    activeTracking := some
      { branch := branch, directory := dir, startTime := now,
        issueId := issueId.getD 0, description := descr },
    branchChecksActive := true,
    pulseActive := true,
    autoStopDeadline := some (now + maxTrackingTimeMs) }

/-- Local `startTracking` (`commands.ts`, lines 154-216).  If a session is
already active the user is prompted (`shouldContinue`): on `false` the
command returns with no change; on `true` it first runs `stopTracking` and
then starts the new session.  With no active session it starts directly. -/
def startTracking (s : LocalState) (shouldContinue : Bool) (branch dir : String)
    (now : Nat) (issueId : Option Nat) (descr : Option String) : LocalState :=
  match s.activeTracking with
  | some _ =>
    if shouldContinue then beginSession (stopTracking s now) branch dir now issueId descr
    else s
  | none => beginSession s branch dir now issueId descr

/-- `checkCurrentBranch` (`commands.ts`, lines 693-743), fired by the
branch-poll interval at time `now`; `branchResult` is the git oracle's
answer (`getCurrentBranch`).  With no active tracking it only clears its
own interval (`stopBranchChecks`).  An oracle error is caught and logged
(state unchanged).  A differing branch closes the current segment and
rolls the session over to the new branch with `segmentStart = now`. -/
def checkCurrentBranch (s : LocalState) (now : Nat)
    (branchResult : Except Unit String) : LocalState :=
  match s.activeTracking with
  | none => { s with branchChecksActive := false }
  | some tr =>
    match branchResult with
    | Except.error _ => s
    | Except.ok current =>
      if current = tr.branch then s
      else
        { s with
          activityLog := s.activityLog ++ [closeSegment tr now s.activityLog.length],
          activeTracking := some { tr with branch := current, startTime := now } }

/-- The auto-stop timer callback (`scheduleAutoStop`, `commands.ts`, lines
596-605): when the deadline fires it invokes `stopTracking` at that time;
with no scheduled deadline nothing happens. -/
def autoStopFire (s : LocalState) : LocalState :=
  match s.autoStopDeadline with
  | none => s
  | some d => stopTracking s d

/-- Outcome of one `sendPulse` call: the state afterwards, whether an error
escaped to the caller, and how many remote heartbeat submissions were
attempted. -/
structure PulseOutcome where
  state : LocalState
  raised : Bool
  attempts : Nat
deriving Repr, DecidableEq

/-- `sendPulse` (`commands.ts`, lines 657-691): without configuration it
only prints a hint; without active tracking it returns; otherwise it sends
one heartbeat (`sendTempoPulseDirect`), and any remote error is caught and
swallowed ("Silent fail for pulses").  `remote` is the remote client's
outcome. -/
def sendPulse (s : LocalState) (remote : Except Unit Unit) : PulseOutcome :=
  if s.apiKey.isNone || s.jiraAccountId.isNone then ⟨s, false, 0⟩
  else
    match s.activeTracking with
    | none => ⟨s, false, 0⟩
    | some _ =>
      match remote with
      | Except.ok _ => ⟨s, false, 1⟩
      | Except.error _ => ⟨s, false, 1⟩

/-- The immediate heartbeat sent by `startPulseSending` at `startTracking`
(`commands.ts`, lines 620-642): it calls `sendPulse` inside a try/catch
whose handler only logs, so its observable outcome is that of `sendPulse`
with any escaped error swallowed. -/
def startPulseSendingInitial (s : LocalState) (remote : Except Unit Unit) : PulseOutcome :=
  let r := sendPulse s remote
  { r with raised := false }

/-- Environment of the daemon liveness probe `isDaemonRunning`
(`src/daemon/client.ts`, lines 133-185): whether the socket path exists,
whether `client.connect()` succeeds, after how many milliseconds the
`status` round-trip settles (`none` = never), and whether it settles
successfully. -/
structure ProbeEnv where
  socketExists : Bool
  connectOk : Bool
  statusReplyMs : Option Nat
  statusOk : Bool
deriving Repr, DecidableEq

/-- The probe's status-request timeout (`setTimeout(..., 5000)`). -/
def probeTimeoutMs : Nat := 5000

/-- `isDaemonRunning` (`src/daemon/client.ts`, lines 133-185): false if the
socket file is missing, false if the connection fails, and otherwise the
status round-trip is raced against a 5-second timeout — a reply that loses
the race, never arrives, or arrives as an error yields false.  The
function returns a boolean and never raises. -/
def isDaemonRunning (env : ProbeEnv) : Bool :=
  if env.socketExists = false then false
  else if env.connectOk = false then false
  else
    match env.statusReplyMs with
    | none => false
    | some t => if t < probeTimeoutMs then env.statusOk else false

/-- Which implementation a command uses for its session logic. -/
inductive TrackPath where
  | daemon
  | localFallback
deriving Repr, DecidableEq

/-- The dispatch at the top of `startTracking` (`commands.ts`, lines
63-152): when `isDaemonRunning` reports false (or the probe's error is
caught), the command falls through to the in-process local tracking path. -/
def startTrackingPath (env : ProbeEnv) : TrackPath :=
  if isDaemonRunning env then TrackPath.daemon else TrackPath.localFallback

/-- The issue line of `statusTracking` (`commands.ts`, lines 353-355):
`if (config.activeTracking.issueId)` — the issue id is displayed only when
it is truthy, i.e. nonzero. -/
def statusIssueLine (s : LocalState) : Option Nat :=
  match s.activeTracking with
  | none => none
  | some tr => if tr.issueId = 0 then none else some tr.issueId

/-- Environment of one `syncTempo` run: `matchesDate t` models
`activity.startTime.startsWith(options.date)` for an entry starting at `t`;
`submitOk id` is the remote work-log client's outcome (`createTempoWorklog`)
for the entry with that id; `promptIssueId id` is the issue id the user
supplies at the interactive prompt for that entry. -/
structure SyncEnv where
  matchesDate : Nat → Bool
  submitOk : Nat → Bool
  promptIssueId : Nat → Nat

/-- The per-entry eligibility test of `syncTempo` (`commands.ts`, lines
486-507): an entry is submitted only if it has an `endTime` and its
duration, `Math.round((end - start) / 1000)` seconds, is at least 60. -/
def sendable (a : ActivityLogEntry) : Bool :=
  match a.endTime with
  | none => false
  | some te => decide (60 ≤ (te - a.startTime + 500) / 1000)

/-- The issue id actually submitted for an entry (`commands.ts`, lines
512-533): the stored one if truthy, otherwise the one supplied at the
prompt. -/
def usedIssueId (env : SyncEnv) (a : ActivityLogEntry) : Nat :=
  if a.issueId = 0 then env.promptIssueId a.id else a.issueId

/-- `updateActivityLog(id, { issueId })`.  Modelled from the spec: the
Activity Log Store's `update(id, partial)` rewrites the entry with that
id in place. -/
def updateIssue (log : List ActivityLogEntry) (id iid : Nat) : List ActivityLogEntry :=
  log.map fun e => if e.id = id then { e with issueId := iid } else e

/-- `updateActivityLog(id, { synced: true })`.  Modelled from the spec:
the Activity Log Store's `update(id, partial)` rewrites the entry with
that id in place. -/
def markSynced (log : List ActivityLogEntry) (id : Nat) : List ActivityLogEntry :=
  log.map fun e => if e.id = id then { e with synced := true } else e

/-- Accumulated state of a `syncTempo` run: the evolving stored log, the
`successCount` and `failCount` counters, and the list of `(entry id,
issue id)` submissions handed to `createTempoWorklog`, in order. -/
structure SyncAcc where
  log : List ActivityLogEntry
  succeeded : Nat
  failed : Nat
  submitted : List (Nat × Nat)
deriving Repr, DecidableEq

/-- The body of the per-entry loop of `syncTempo` (`commands.ts`, lines
484-562) for one snapshot entry `a`.  Skips (no `endTime`, or duration
under 60 s) leave everything unchanged and count nothing.  Otherwise a
missing issue id is first backfilled into the store from the prompt, the
entry is submitted, and on remote success it is marked synced and counted
as succeeded, while on remote failure the store is left as is (the
backfill included) and the failure is counted. -/
def syncStep (env : SyncEnv) (acc : SyncAcc) (a : ActivityLogEntry) : SyncAcc :=
  if sendable a then
    let iid := if a.issueId = 0 then env.promptIssueId a.id else a.issueId
    let log1 := if a.issueId = 0 then updateIssue acc.log a.id (env.promptIssueId a.id)
                else acc.log
    if env.submitOk a.id then
      { log := markSynced log1 a.id, succeeded := acc.succeeded + 1,
        failed := acc.failed, submitted := acc.submitted ++ [(a.id, iid)] }
    else
      { log := log1, succeeded := acc.succeeded, failed := acc.failed + 1,
        submitted := acc.submitted ++ [(a.id, iid)] }
  else acc

/-- The snapshot `dateActivities` (`commands.ts`, lines 465-468): entries
of the requested date that are not yet synced. -/
def snapshot (env : SyncEnv) (log : List ActivityLogEntry) : List ActivityLogEntry :=
  log.filter fun a => env.matchesDate a.startTime && !a.synced

/-- The sync reconciler core of `syncTempo` (`commands.ts`, lines 454-569)
after the configuration precondition: walk the unsynced snapshot for the
date, processing each entry with `syncStep`. -/
def syncTempo (env : SyncEnv) (log : List ActivityLogEntry) : SyncAcc :=
  (snapshot env log).foldl (syncStep env) { log := log, succeeded := 0, failed := 0, submitted := [] }

/-- The `syncTempo` command on the local path (`commands.ts`, lines
454-462): without an API key and Jira account id it returns before
touching anything; otherwise it runs the reconciler over the stored log. -/
def syncTempoCommand (env : SyncEnv) (s : LocalState) : SyncAcc :=
  if s.apiKey.isNone || s.jiraAccountId.isNone then
    { log := s.activityLog, succeeded := 0, failed := 0, submitted := [] }
  else syncTempo env s.activityLog

/-- Pointwise effect on a stored entry `e` of processing snapshot entry `a`
in `syncStep`: entries with a different id are untouched; the matching
entry gets the issue-id backfill when the snapshot entry had none, and the
synced mark when the submission succeeded. -/
def entryStep (env : SyncEnv) (a e : ActivityLogEntry) : ActivityLogEntry :=
  if e.id = a.id && sendable a then
    let e1 := if a.issueId = 0 then { e with issueId := env.promptIssueId a.id } else e
    if env.submitOk a.id then { e1 with synced := true } else e1
  else e

/-- The accumulated pointwise effect of a whole snapshot on one stored
entry. -/
def stepsApply (env : SyncEnv) (l : List ActivityLogEntry) (e : ActivityLogEntry) : ActivityLogEntry :=
  l.foldl (fun e a => entryStep env a e) e

/-- Run a sequence of branch-poll firings: each event is the firing time
together with the branch the git oracle reports at that moment. -/
def runChecks (s : LocalState) : List (Nat × String) → LocalState
  | [] => s
  | e :: rest => runChecks (checkCurrentBranch s e.1 (Except.ok e.2)) rest

/-- The activity-log entries produced by one complete local tracking
lifetime on one directory: `startTracking` at `t0` on branch `b0`, the
given branch-poll observations, then `stopTracking` at `tStop`. -/
def lifecycleEntries (dir b0 : String) (issueId : Option Nat) (descr : Option String)
    (t0 : Nat) (events : List (Nat × String)) (tStop : Nat) : List ActivityLogEntry :=
  (stopTracking (runChecks (startTracking emptyLocalState false b0 dir t0 issueId descr) events)
    tStop).activityLog

/-- Decidable segment-tiling predicate: the entries, in list order, start
at `t` and each entry's `endTime` is the next entry's `startTime`. -/
def tilesFromB (t : Nat) : List ActivityLogEntry → Bool
  | [] => true
  | e :: rest =>
    match e.endTime with
    | some te => decide (e.startTime = t) && tilesFromB te rest
    | none => false

/-- The end of the last segment of a tiled list, starting from `t`. -/
def lastEnd (t : Nat) : List ActivityLogEntry → Nat
  | [] => t
  | e :: rest => lastEnd (e.endTime.getD t) rest

/-- An entry is a well-formed closed span: it has an `endTime` no earlier
than its `startTime`. -/
def entrySpanOk (e : ActivityLogEntry) : Bool :=
  match e.endTime with
  | some te => decide (e.startTime ≤ te)
  | none => false

/-- Concrete state with one active session, used as explicit input below. -/
def busyState : LocalState :=
  { apiKey := none, jiraAccountId := none,
    activeTracking := some
      { branch := "main", directory := "/repo", startTime := 100,
        issueId := 0, description := none },
    activityLog := [], branchChecksActive := true, pulseActive := true,
    autoStopDeadline := some (100 + maxTrackingTimeMs) }

/-- Concrete unsynced two-minute entry with no stored issue id, used as
explicit input below. -/
def entryNoIssue : ActivityLogEntry :=
  { id := 0, branch := "main", directory := "/repo", startTime := 0,
    endTime := some 120000, issueId := 0, description := none, synced := false }

/-- Concrete sync environment in which every remote submission fails and
the prompt supplies issue id 7, used as explicit input below. -/
def envAllFail : SyncEnv :=
  { matchesDate := fun _ => true, submitOk := fun _ => false, promptIssueId := fun _ => 7 }

/-- Concrete sync environment in which only entry id 1 is accepted by the
remote client and the prompt supplies issue id 7, used as explicit input
below. -/
def envOkOne : SyncEnv :=
  { matchesDate := fun _ => true, submitOk := fun i => i = 1, promptIssueId := fun _ => 7 }

/-- Concrete three-entry log, used as explicit input below: entry 1 is
eligible and will succeed, entry 2 is eligible and will fail, entry 3 has
no end time. -/
def sampleLog : List ActivityLogEntry :=
  [{ id := 1, branch := "main", directory := "/repo", startTime := 0,
     endTime := some 120000, issueId := 5, description := none, synced := false },
   { id := 2, branch := "dev", directory := "/repo", startTime := 200000,
     endTime := some 380000, issueId := 0, description := none, synced := false },
   { id := 3, branch := "wip", directory := "/repo", startTime := 400000,
     endTime := none, issueId := 5, description := none, synced := false }]

/-! Helper lemmas about the sync reconciler. -/

theorem length_filter_partition {α : Type} (p : α → Bool) :
    ∀ l : List α, (l.filter p).length + (l.filter (fun a => !p a)).length = l.length := by
  intro l
  induction l with
  | nil => rfl
  | cons a l ih =>
    by_cases h : p a = true
    · simp [List.filter_cons, h, Nat.succ_add, ih]
    · simp [List.filter_cons, h, Bool.not_eq_true] at *
      omega

theorem syncStep_submitted (env : SyncEnv) (acc : SyncAcc) (a : ActivityLogEntry) :
    (syncStep env acc a).submitted =
      acc.submitted ++ (if sendable a then [(a.id, usedIssueId env a)] else []) := by
  by_cases hs : sendable a = true
  · by_cases hok : env.submitOk a.id = true
    · simp [syncStep, hs, hok, usedIssueId]
    · simp [syncStep, hs, hok, usedIssueId]
  · simp [syncStep, hs]

theorem syncStep_succeeded (env : SyncEnv) (acc : SyncAcc) (a : ActivityLogEntry) :
    (syncStep env acc a).succeeded =
      acc.succeeded + (if sendable a && env.submitOk a.id then 1 else 0) := by
  by_cases hs : sendable a = true
  · by_cases hok : env.submitOk a.id = true
    · simp [syncStep, hs, hok]
    · simp [syncStep, hs, hok]
  · simp [syncStep, hs]

theorem syncStep_failed (env : SyncEnv) (acc : SyncAcc) (a : ActivityLogEntry) :
    (syncStep env acc a).failed =
      acc.failed + (if sendable a && !env.submitOk a.id then 1 else 0) := by
  by_cases hs : sendable a = true
  · by_cases hok : env.submitOk a.id = true
    · simp [syncStep, hs, hok]
    · simp [syncStep, hs, hok]
  · simp [syncStep, hs]

theorem sync_foldl_submitted (env : SyncEnv) :
    ∀ (l : List ActivityLogEntry) (acc : SyncAcc),
      (l.foldl (syncStep env) acc).submitted =
        acc.submitted ++ (l.filter sendable).map (fun a => (a.id, usedIssueId env a)) := by
  intro l
  induction l with
  | nil => intro acc; simp
  | cons a l ih =>
    intro acc
    by_cases hs : sendable a = true
    · simp [List.foldl_cons, ih, syncStep_submitted, hs, List.filter_cons]
    · simp [List.foldl_cons, ih, syncStep_submitted, hs, List.filter_cons]

theorem sync_foldl_succeeded (env : SyncEnv) :
    ∀ (l : List ActivityLogEntry) (acc : SyncAcc),
      (l.foldl (syncStep env) acc).succeeded =
        acc.succeeded + ((l.filter sendable).filter (fun a => env.submitOk a.id)).length := by
  intro l
  induction l with
  | nil => intro acc; simp
  | cons a l ih =>
    intro acc
    by_cases hs : sendable a = true
    · by_cases hok : env.submitOk a.id = true
      · simp [List.foldl_cons, ih, syncStep_succeeded, hs, hok, List.filter_cons]
        omega
      · simp [List.foldl_cons, ih, syncStep_succeeded, hs, hok, List.filter_cons]
    · simp [List.foldl_cons, ih, syncStep_succeeded, hs, List.filter_cons]

theorem sync_foldl_failed (env : SyncEnv) :
    ∀ (l : List ActivityLogEntry) (acc : SyncAcc),
      (l.foldl (syncStep env) acc).failed =
        acc.failed + ((l.filter sendable).filter (fun a => !env.submitOk a.id)).length := by
  intro l
  induction l with
  | nil => intro acc; simp
  | cons a l ih =>
    intro acc
    by_cases hs : sendable a = true
    · by_cases hok : env.submitOk a.id = true
      · simp [List.foldl_cons, ih, syncStep_failed, hs, hok, List.filter_cons]
      · simp [List.foldl_cons, ih, syncStep_failed, hs, hok, List.filter_cons]
        omega
    · simp [List.foldl_cons, ih, syncStep_failed, hs, List.filter_cons]

theorem map_id_of_mem {α : Type} (f : α → α) :
    ∀ l : List α, (∀ x ∈ l, f x = x) → l.map f = l := by
  intro l
  induction l with
  | nil => intro _; rfl
  | cons a l ih =>
    intro h
    rw [List.map_cons, h a (List.mem_cons_self a l),
      ih fun x hx => h x (List.mem_cons_of_mem a hx)]

theorem entryStep_id (env : SyncEnv) (a e : ActivityLogEntry) :
    (entryStep env a e).id = e.id := by
  by_cases hc : (e.id = a.id && sendable a) = true
  · by_cases hi : a.issueId = 0 <;> by_cases hok : env.submitOk a.id = true <;>
      simp [entryStep, hc, hi, hok]
  · simp [entryStep, hc]

theorem entryStep_synced_mono (env : SyncEnv) (a e : ActivityLogEntry)
    (h : e.synced = true) : (entryStep env a e).synced = true := by
  by_cases hc : (e.id = a.id && sendable a) = true
  · by_cases hi : a.issueId = 0 <;> by_cases hok : env.submitOk a.id = true <;>
      simp [entryStep, hc, hi, hok, h]
  · simp [entryStep, hc, h]

theorem stepsApply_id (env : SyncEnv) :
    ∀ (l : List ActivityLogEntry) (e : ActivityLogEntry),
      (stepsApply env l e).id = e.id := by
  intro l
  induction l with
  | nil => intro e; rfl
  | cons a l ih =>
    intro e
    have : stepsApply env (a :: l) e = stepsApply env l (entryStep env a e) := rfl
    rw [this, ih, entryStep_id]

theorem stepsApply_synced_mono (env : SyncEnv) :
    ∀ (l : List ActivityLogEntry) (e : ActivityLogEntry),
      e.synced = true → (stepsApply env l e).synced = true := by
  intro l
  induction l with
  | nil => intro e h; exact h
  | cons a l ih =>
    intro e h
    exact ih (entryStep env a e) (entryStep_synced_mono env a e h)

theorem stepsApply_untouched (env : SyncEnv) :
    ∀ (l : List ActivityLogEntry) (e : ActivityLogEntry),
      (∀ b ∈ l, b.id ≠ e.id) → stepsApply env l e = e := by
  intro l
  induction l with
  | nil => intro e _; rfl
  | cons a l ih =>
    intro e h
    have ha : e.id ≠ a.id := fun hc => h a (List.mem_cons_self a l) hc.symm
    have hstep : entryStep env a e = e := by simp [entryStep, ha]
    have : stepsApply env (a :: l) e = stepsApply env l (entryStep env a e) := rfl
    rw [this, hstep]
    exact ih e fun b hb => h b (List.mem_cons_of_mem a hb)

theorem stepsApply_middle (env : SyncEnv) (l1 l2 : List ActivityLogEntry)
    (a : ActivityLogEntry) (h1 : ∀ b ∈ l1, b.id ≠ a.id) (h2 : ∀ b ∈ l2, b.id ≠ a.id) :
    stepsApply env (l1 ++ a :: l2) a = entryStep env a a := by
  have hl1 : stepsApply env l1 a = a := stepsApply_untouched env l1 a h1
  have happ : stepsApply env (l1 ++ a :: l2) a
      = stepsApply env (a :: l2) (stepsApply env l1 a) := by
    simp [stepsApply, List.foldl_append]
  rw [happ, hl1]
  have hcons : stepsApply env (a :: l2) a = stepsApply env l2 (entryStep env a a) := rfl
  rw [hcons]
  exact stepsApply_untouched env l2 (entryStep env a a) fun b hb => by
    rw [entryStep_id]; exact h2 b hb

theorem syncStep_log (env : SyncEnv) (acc : SyncAcc) (a : ActivityLogEntry) :
    (syncStep env acc a).log = acc.log.map (entryStep env a) := by
  by_cases hs : sendable a = true
  · by_cases hi : a.issueId = 0
    · by_cases hok : env.submitOk a.id = true
      · simp only [syncStep, hs, hi, hok, if_pos, if_true, markSynced, updateIssue,
          List.map_map]
        refine List.map_congr_left ?_
        intro e _
        by_cases hid : e.id = a.id <;> simp [entryStep, Function.comp, hid, hs, hi, hok]
      · simp only [syncStep, hs, hi, hok, if_pos, if_true, if_false, updateIssue]
        refine List.map_congr_left ?_
        intro e _
        by_cases hid : e.id = a.id <;> simp [entryStep, hid, hs, hi, hok]
    · by_cases hok : env.submitOk a.id = true
      · simp only [syncStep, hs, hi, hok, if_pos, if_true, if_false, markSynced]
        refine List.map_congr_left ?_
        intro e _
        by_cases hid : e.id = a.id <;> simp [entryStep, hid, hs, hi, hok]
      · simp only [syncStep, hs, hi, hok, if_pos, if_true, if_false]
        have h : ∀ e ∈ acc.log, entryStep env a e = e := by
          intro e _
          by_cases hid : e.id = a.id <;> simp [entryStep, hid, hs, hi, hok]
        exact (map_id_of_mem _ acc.log h).symm
  · have hs' : sendable a = false := by
      cases h : sendable a
      · rfl
      · exact absurd h hs
    simp only [syncStep, hs', Bool.false_eq_true, if_false]
    have h : ∀ e ∈ acc.log, entryStep env a e = e := by
      intro e _; simp [entryStep, hs']
    exact (map_id_of_mem _ acc.log h).symm

theorem sync_foldl_log (env : SyncEnv) :
    ∀ (l : List ActivityLogEntry) (acc : SyncAcc),
      (l.foldl (syncStep env) acc).log = acc.log.map (stepsApply env l) := by
  intro l
  induction l with
  | nil =>
    intro acc
    have h : ∀ e ∈ acc.log, stepsApply env [] e = e := fun e _ => rfl
    simp only [List.foldl_nil]
    exact (map_id_of_mem _ acc.log h).symm
  | cons a l ih =>
    intro acc
    calc (List.foldl (syncStep env) acc (a :: l)).log
        = (syncStep env acc a).log.map (stepsApply env l) := ih _
      _ = (acc.log.map (entryStep env a)).map (stepsApply env l) := by rw [syncStep_log]
      _ = acc.log.map (stepsApply env (a :: l)) := by
          rw [List.map_map]
          exact List.map_congr_left fun e _ => rfl

theorem syncTempo_log (env : SyncEnv) (log : List ActivityLogEntry) :
    (syncTempo env log).log = log.map (stepsApply env (snapshot env log)) :=
  sync_foldl_log env (snapshot env log) _

theorem syncTempo_submitted (env : SyncEnv) (log : List ActivityLogEntry) :
    (syncTempo env log).submitted =
      ((snapshot env log).filter sendable).map (fun a => (a.id, usedIssueId env a)) := by
  have h := sync_foldl_submitted env (snapshot env log)
    { log := log, succeeded := 0, failed := 0, submitted := [] }
  simpa [syncTempo] using h

theorem syncTempo_succeeded (env : SyncEnv) (log : List ActivityLogEntry) :
    (syncTempo env log).succeeded =
      (((snapshot env log).filter sendable).filter (fun a => env.submitOk a.id)).length := by
  have h := sync_foldl_succeeded env (snapshot env log)
    { log := log, succeeded := 0, failed := 0, submitted := [] }
  simpa [syncTempo] using h

theorem syncTempo_failed (env : SyncEnv) (log : List ActivityLogEntry) :
    (syncTempo env log).failed =
      (((snapshot env log).filter sendable).filter (fun a => !env.submitOk a.id)).length := by
  have h := sync_foldl_failed env (snapshot env log)
    { log := log, succeeded := 0, failed := 0, submitted := [] }
  simpa [syncTempo] using h

theorem mem_snapshot (env : SyncEnv) (log : List ActivityLogEntry) (a : ActivityLogEntry) :
    a ∈ snapshot env log ↔
      a ∈ log ∧ env.matchesDate a.startTime = true ∧ a.synced = false := by
  simp [snapshot, List.mem_filter, Bool.and_eq_true, Bool.not_eq_true', and_assoc]

theorem snapshot_nodup_ids (env : SyncEnv) (log : List ActivityLogEntry)
    (hnd : (log.map (fun e => e.id)).Nodup) :
    ((snapshot env log).map (fun e => e.id)).Nodup := by
  have hsub : List.Sublist (snapshot env log) log := List.filter_sublist log
  exact List.Nodup.sublist (hsub.map (fun e => e.id)) hnd

theorem snapshot_split (env : SyncEnv) (log : List ActivityLogEntry)
    (a : ActivityLogEntry) (hnd : (log.map (fun e => e.id)).Nodup)
    (ha : a ∈ snapshot env log) :
    ∃ l1 l2, snapshot env log = l1 ++ a :: l2 ∧
      (∀ b ∈ l1, b.id ≠ a.id) ∧ (∀ b ∈ l2, b.id ≠ a.id) := by
  obtain ⟨l1, l2, heq⟩ := List.append_of_mem ha
  have hnd2 := snapshot_nodup_ids env log hnd
  rw [heq] at hnd2
  rw [List.map_append, List.map_cons] at hnd2
  rw [List.nodup_middle] at hnd2
  have hnotmem := (List.nodup_cons.mp hnd2).1
  rw [List.mem_append] at hnotmem
  refine ⟨l1, l2, heq, ?_, ?_⟩
  · intro b hb hbid
    exact hnotmem (Or.inl (by rw [← hbid]; exact List.mem_map_of_mem _ hb))
  · intro b hb hbid
    exact hnotmem (Or.inr (by rw [← hbid]; exact List.mem_map_of_mem _ hb))

theorem stepsApply_snapshot_self (env : SyncEnv) (log : List ActivityLogEntry)
    (hnd : (log.map (fun e => e.id)).Nodup) (a : ActivityLogEntry)
    (ha : a ∈ snapshot env log) :
    stepsApply env (snapshot env log) a = entryStep env a a := by
  obtain ⟨l1, l2, heq, h1, h2⟩ := snapshot_split env log a hnd ha
  rw [heq]
  exact stepsApply_middle env l1 l2 a h1 h2

theorem log_id_inj (log : List ActivityLogEntry)
    (hnd : (log.map (fun e => e.id)).Nodup) :
    ∀ e ∈ log, ∀ f ∈ log, e.id = f.id → e = f := by
  intro e he f hf h
  exact List.inj_on_of_nodup_map hnd he hf h

theorem entryStep_self_synced (env : SyncEnv) (a : ActivityLogEntry)
    (hs : sendable a = true) (hok : env.submitOk a.id = true) :
    (entryStep env a a).synced = true := by
  by_cases hi : a.issueId = 0 <;> simp [entryStep, hs, hok, hi]

theorem entryStep_self_fail (env : SyncEnv) (a : ActivityLogEntry)
    (hs : sendable a = true) (hok : env.submitOk a.id = false) :
    entryStep env a a = { a with issueId := usedIssueId env a } := by
  by_cases hi : a.issueId = 0 <;> simp [entryStep, usedIssueId, hs, hok, hi]

theorem entryStep_self_skip (env : SyncEnv) (a : ActivityLogEntry)
    (hs : sendable a = false) : entryStep env a a = a := by
  simp [entryStep, hs]

theorem entryStep_synced_source (env : SyncEnv) (a e : ActivityLogEntry)
    (h : (entryStep env a e).synced = true) :
    e.synced = true ∨ (e.id = a.id ∧ sendable a = true ∧ env.submitOk a.id = true) := by
  by_cases hid : e.id = a.id
  · by_cases hs : sendable a = true
    · by_cases hok : env.submitOk a.id = true
      · exact Or.inr ⟨hid, hs, hok⟩
      · left
        by_cases hi : a.issueId = 0 <;> simpa [entryStep, hid, hs, hok, hi] using h
    · left
      have hs' : sendable a = false := by
        cases hv : sendable a
        · rfl
        · exact absurd hv hs
      simpa [entryStep, hid, hs'] using h
  · left
    simpa [entryStep, hid] using h

theorem stepsApply_synced_cases (env : SyncEnv) :
    ∀ (l : List ActivityLogEntry) (e : ActivityLogEntry),
      (stepsApply env l e).synced = true →
      e.synced = true ∨
        ∃ a ∈ l, a.id = e.id ∧ sendable a = true ∧ env.submitOk a.id = true := by
  intro l
  induction l with
  | nil => intro e h; exact Or.inl h
  | cons a l ih =>
    intro e h
    have h' : (stepsApply env l (entryStep env a e)).synced = true := h
    rcases ih (entryStep env a e) h' with h1 | ⟨b, hb, hbid, hbs, hbok⟩
    · rcases entryStep_synced_source env a e h1 with h2 | ⟨hid, hs, hok⟩
      · exact Or.inl h2
      · exact Or.inr ⟨a, List.mem_cons_self a l, hid.symm, hs, hok⟩
    · refine Or.inr ⟨b, List.mem_cons_of_mem a hb, ?_, hbs, hbok⟩
      rw [hbid, entryStep_id]

/-! The claims. -/

/-- Claim C2, counterexample: on the local path, invoking `startTracking`
while a session is active does not always leave the state unchanged — when
the user confirms the stop-and-restart prompt, the old session is closed
into the activity log and a new session is started, so the state is
mutated and no error is raised. -/
theorem start_conflict_mutates :
    startTracking busyState true "feature" "/repo" 500 none none ≠ busyState := by
  decide

/-- Claim C2, amended: `startTracking` on a directory with an active
session performs no mutation only when the user declines the
stop-and-restart prompt (the conflict is reported informationally, not as
an error); if the user confirms, the existing session is first stopped —
closing its segment into the activity log — and the new session is
started. -/
theorem start_conflict_amended (s : LocalState) (tr : ActiveTracking)
    (b d : String) (now : Nat) (iid : Option Nat) (descr : Option String)
    (h : s.activeTracking = some tr) :
    startTracking s false b d now iid descr = s ∧
    (startTracking s true b d now iid descr).activityLog =
      s.activityLog ++ [closeSegment tr now s.activityLog.length] ∧
    (startTracking s true b d now iid descr).activeTracking = some
      { branch := b, directory := d, startTime := now, issueId := iid.getD 0,
        description := descr } := by
  refine ⟨by simp [startTracking, h], ?_, ?_⟩ <;>
    simp [startTracking, h, stopTracking, beginSession]

/-- Witness for the amended C2 at a concrete busy state. -/
theorem start_conflict_amended_witness :
    startTracking busyState false "feature" "/repo" 500 none none = busyState ∧
    (startTracking busyState true "feature" "/repo" 500 none none).activityLog =
      busyState.activityLog ++
        [closeSegment
          { branch := "main", directory := "/repo", startTime := 100,
            issueId := 0, description := none }
          500 busyState.activityLog.length] ∧
    (startTracking busyState true "feature" "/repo" 500 none none).activeTracking = some
      { branch := "feature", directory := "/repo", startTime := 500, issueId := 0,
        description := none } :=
  start_conflict_amended busyState
    { branch := "main", directory := "/repo", startTime := 100,
      issueId := 0, description := none }
    "feature" "/repo" 500 none none rfl

/-- Claim C3: with no manual stop and no branch change, a session started
at `t0` produces, when the auto-stop timer fires, exactly one activity-log
entry spanning `[t0, t0 + 8h)`; the session is gone immediately after; the
maximum tracking time is 8 hours; and a branch-poll firing never changes
the auto-stop deadline (it is fixed at creation). -/
theorem auto_stop_exactness (b d : String) (iid : Option Nat)
    (descr : Option String) (t0 : Nat) :
    ((autoStopFire (startTracking emptyLocalState false b d t0 iid descr)).activityLog.map
        (fun e => (e.startTime, e.endTime))) = [(t0, some (t0 + maxTrackingTimeMs))] ∧
    (autoStopFire (startTracking emptyLocalState false b d t0 iid descr)).activeTracking
      = none ∧
    maxTrackingTimeMs = 8 * 60 * 60 * 1000 ∧
    (∀ (s : LocalState) (t : Nat) (br : Except Unit String),
      (checkCurrentBranch s t br).autoStopDeadline = s.autoStopDeadline) := by
  refine ⟨rfl, rfl, rfl, ?_⟩
  intro s t br
  cases hat : s.activeTracking with
  | none => simp [checkCurrentBranch, hat]
  | some tr =>
    cases br with
    | error e => simp [checkCurrentBranch, hat]
    | ok cur => by_cases hb : cur = tr.branch <;> simp [checkCurrentBranch, hat, hb]

/-- Claim C4: `syncTempo` is idempotent over already-synced entries.  A
second run over the first run's log attempts only entries still unsynced;
an entry whose submission succeeded in the first run is never resubmitted
in the second; and an entry is marked synced only if it was synced before
or its submission was confirmed successful. -/
theorem sync_idempotence (env : SyncEnv) (log : List ActivityLogEntry)
    (hnd : (log.map (fun e => e.id)).Nodup) :
    (∀ p ∈ (syncTempo env (syncTempo env log).log).submitted,
       ∃ e ∈ (syncTempo env log).log, e.id = p.1 ∧ e.synced = false) ∧
    (∀ p ∈ (syncTempo env log).submitted, env.submitOk p.1 = true →
       ∀ q ∈ (syncTempo env (syncTempo env log).log).submitted, q.1 ≠ p.1) ∧
    (∀ e2 ∈ (syncTempo env log).log, e2.synced = true →
       (∃ e ∈ log, e.id = e2.id ∧ e.synced = true) ∨
       (env.submitOk e2.id = true ∧
        ∃ p ∈ (syncTempo env log).submitted, p.1 = e2.id)) := by
  refine ⟨?_, ?_, ?_⟩
  · intro p hp
    rw [syncTempo_submitted] at hp
    obtain ⟨a, ha, hpa⟩ := List.mem_map.mp hp
    have hsnap := List.mem_of_mem_filter ha
    have hmem := (mem_snapshot env _ a).mp hsnap
    refine ⟨a, hmem.1, ?_, hmem.2.2⟩
    rw [← hpa]
  · intro p hp hok q hq hqp
    rw [syncTempo_submitted] at hp
    obtain ⟨a, ha, hpa⟩ := List.mem_map.mp hp
    have hasend : sendable a = true := (List.mem_filter.mp ha).2
    have hasnap : a ∈ snapshot env log := List.mem_of_mem_filter ha
    have hamem := (mem_snapshot env log a).mp hasnap
    rw [syncTempo_submitted] at hq
    obtain ⟨b, hb, hqb⟩ := List.mem_map.mp hq
    have hbsnap := List.mem_of_mem_filter hb
    have hbmem := (mem_snapshot env _ b).mp hbsnap
    have hbid : b.id = a.id := by
      have h1 : q.1 = b.id := by rw [← hqb]
      have h2 : p.1 = a.id := by rw [← hpa]
      rw [h1, h2] at hqp
      exact hqp
    have hbr1 : b ∈ (syncTempo env log).log := hbmem.1
    rw [syncTempo_log] at hbr1
    obtain ⟨e, he, heb⟩ := List.mem_map.mp hbr1
    have heid : e.id = a.id := by
      rw [← hbid, ← heb, stepsApply_id]
    have hea : e = a := log_id_inj log hnd e he a hamem.1 heid
    rw [hea] at heb
    rw [stepsApply_snapshot_self env log hnd a hasnap] at heb
    have hsy : b.synced = true := by
      rw [← heb]
      exact entryStep_self_synced env a hasend (by rwa [← hpa] at hok)
    rw [hbmem.2.2] at hsy
    exact absurd hsy (by simp)
  · intro e2 he2 hsy
    rw [syncTempo_log] at he2
    obtain ⟨e, he, heq⟩ := List.mem_map.mp he2
    have hid : e.id = e2.id := by rw [← heq, stepsApply_id]
    rcases stepsApply_synced_cases env (snapshot env log) e (by rw [heq]; exact hsy) with
      h1 | ⟨a, hal, haid, hs, hok⟩
    · exact Or.inl ⟨e, he, hid, h1⟩
    · refine Or.inr ⟨by rw [← hid, ← haid]; exact hok, ?_⟩
      refine ⟨(a.id, usedIssueId env a), ?_, by rw [haid, hid]⟩
      rw [syncTempo_submitted]
      refine List.mem_map_of_mem _ ?_
      exact List.mem_filter.mpr ⟨hal, hs⟩

/-- Witness for C4 at a concrete log and environment. -/
theorem sync_idempotence_witness :
    (∀ p ∈ (syncTempo envOkOne (syncTempo envOkOne sampleLog).log).submitted,
       ∃ e ∈ (syncTempo envOkOne sampleLog).log, e.id = p.1 ∧ e.synced = false) ∧
    (∀ p ∈ (syncTempo envOkOne sampleLog).submitted, envOkOne.submitOk p.1 = true →
       ∀ q ∈ (syncTempo envOkOne (syncTempo envOkOne sampleLog).log).submitted, q.1 ≠ p.1) ∧
    (∀ e2 ∈ (syncTempo envOkOne sampleLog).log, e2.synced = true →
       (∃ e ∈ sampleLog, e.id = e2.id ∧ e.synced = true) ∨
       (envOkOne.submitOk e2.id = true ∧
        ∃ p ∈ (syncTempo envOkOne sampleLog).submitted, p.1 = e2.id)) :=
  sync_idempotence envOkOne sampleLog (by decide)

/-- Claim C5, counterexample: a remote submission failure does not always
leave the failed entry untouched — when the entry's issue id was missing,
the prompted issue id is persisted into the store before the submission,
and it remains after the submission fails.  Here the only entry fails and
is nonetheless mutated. -/
theorem sync_failed_entry_mutated :
    (syncTempo envAllFail [entryNoIssue]).failed = 1 ∧
    entryNoIssue ∉ (syncTempo envAllFail [entryNoIssue]).log := by
  decide

/-- Claim C5, amended: in one `syncTempo` call every eligible entry is
attempted regardless of other entries' failures, the failed count equals
exactly the number of failed submissions (and succeeded the successful
ones), and a remote failure leaves the failed entry unsynced and unchanged
except possibly for the issue-id backfill persisted before submission. -/
theorem sync_failure_isolation (env : SyncEnv) (log : List ActivityLogEntry)
    (hnd : (log.map (fun e => e.id)).Nodup) :
    (syncTempo env log).submitted =
      ((snapshot env log).filter sendable).map (fun a => (a.id, usedIssueId env a)) ∧
    (syncTempo env log).failed =
      (((snapshot env log).filter sendable).filter (fun a => !env.submitOk a.id)).length ∧
    (syncTempo env log).succeeded =
      (((snapshot env log).filter sendable).filter (fun a => env.submitOk a.id)).length ∧
    (∀ a ∈ (snapshot env log).filter sendable, env.submitOk a.id = false →
      a.synced = false ∧
      { a with issueId := usedIssueId env a } ∈ (syncTempo env log).log) := by
  refine ⟨syncTempo_submitted env log, syncTempo_failed env log,
    syncTempo_succeeded env log, ?_⟩
  intro a ha hok
  have hsend : sendable a = true := (List.mem_filter.mp ha).2
  have hsnap : a ∈ snapshot env log := List.mem_of_mem_filter ha
  have hmem := (mem_snapshot env log a).mp hsnap
  refine ⟨hmem.2.2, ?_⟩
  rw [syncTempo_log]
  have hself := stepsApply_snapshot_self env log hnd a hsnap
  rw [entryStep_self_fail env a hsend hok] at hself
  rw [← hself]
  exact List.mem_map_of_mem _ hmem.1

/-- Witness for the amended C5 at a concrete log and environment. -/
theorem sync_failure_isolation_witness :
    (syncTempo envOkOne sampleLog).submitted =
      ((snapshot envOkOne sampleLog).filter sendable).map
        (fun a => (a.id, usedIssueId envOkOne a)) ∧
    (syncTempo envOkOne sampleLog).failed =
      (((snapshot envOkOne sampleLog).filter sendable).filter
        (fun a => !envOkOne.submitOk a.id)).length ∧
    (syncTempo envOkOne sampleLog).succeeded =
      (((snapshot envOkOne sampleLog).filter sendable).filter
        (fun a => envOkOne.submitOk a.id)).length ∧
    (∀ a ∈ (snapshot envOkOne sampleLog).filter sendable,
      envOkOne.submitOk a.id = false →
      a.synced = false ∧
      { a with issueId := usedIssueId envOkOne a } ∈ (syncTempo envOkOne sampleLog).log) :=
  sync_failure_isolation envOkOne sampleLog (by decide)

/-- Claim C6: entries without an `endTime`, and entries shorter than the
60-second minimum, are skipped by `syncTempo`: they are never submitted to
the remote client, remain unsynced and unchanged in the stored log, and
are counted neither as succeeded nor as failed (those two counters
partition exactly the submitted entries). -/
theorem sync_skip_rules (env : SyncEnv) (log : List ActivityLogEntry)
    (hnd : (log.map (fun e => e.id)).Nodup) :
    (∀ a ∈ snapshot env log, sendable a = false →
       a.synced = false ∧ a ∈ (syncTempo env log).log ∧
       ∀ p ∈ (syncTempo env log).submitted, p.1 ≠ a.id) ∧
    (syncTempo env log).succeeded + (syncTempo env log).failed =
      (syncTempo env log).submitted.length := by
  constructor
  · intro a ha hsk
    have hmem := (mem_snapshot env log a).mp ha
    refine ⟨hmem.2.2, ?_, ?_⟩
    · rw [syncTempo_log]
      have h1 := stepsApply_snapshot_self env log hnd a ha
      rw [entryStep_self_skip env a hsk] at h1
      rw [← h1]
      exact List.mem_map_of_mem _ hmem.1
    · intro p hp hpa
      rw [syncTempo_submitted] at hp
      obtain ⟨b, hb, hbp⟩ := List.mem_map.mp hp
      have hbs : sendable b = true := (List.mem_filter.mp hb).2
      have hbsnap : b ∈ snapshot env log := List.mem_of_mem_filter hb
      have hbid : b.id = a.id := by
        have h1 : p.1 = b.id := by rw [← hbp]
        rw [h1] at hpa
        exact hpa
      have hba : b = a :=
        log_id_inj log hnd b ((mem_snapshot env log b).mp hbsnap).1 a hmem.1 hbid
      rw [hba, hsk] at hbs
      exact absurd hbs (by simp)
  · rw [syncTempo_succeeded, syncTempo_failed, syncTempo_submitted, List.length_map]
    exact length_filter_partition _ _

/-- Witness for C6 at a concrete log and environment. -/
theorem sync_skip_rules_witness :
    (∀ a ∈ snapshot envOkOne sampleLog, sendable a = false →
       a.synced = false ∧ a ∈ (syncTempo envOkOne sampleLog).log ∧
       ∀ p ∈ (syncTempo envOkOne sampleLog).submitted, p.1 ≠ a.id) ∧
    (syncTempo envOkOne sampleLog).succeeded + (syncTempo envOkOne sampleLog).failed =
      (syncTempo envOkOne sampleLog).submitted.length :=
  sync_skip_rules envOkOne sampleLog (by decide)

/-- Claim C7: every heartbeat failure is swallowed — `sendPulse` leaves
the whole state unchanged for any remote outcome, never propagates an
error, attempts at most one remote submission (no out-of-band retry), and
the immediate heartbeat at `startTracking` behaves identically. -/
theorem pulse_failures_swallowed (s : LocalState) (remote : Except Unit Unit) :
    (sendPulse s remote).state = s ∧
    (sendPulse s remote).raised = false ∧
    (sendPulse s remote).attempts ≤ 1 ∧
    startPulseSendingInitial s remote = sendPulse s remote := by
  unfold startPulseSendingInitial sendPulse
  by_cases h1 : (s.apiKey.isNone || s.jiraAccountId.isNone) = true
  · simp [h1]
  · cases hat : s.activeTracking with
    | none => simp [h1, hat]
    | some tr => cases remote <;> simp [h1, hat]

/-- Claim C8: the daemon liveness probe returns "not running" — without
raising — whenever the socket path is absent, the connection fails, or the
status round-trip does not settle within the bounded timeout (5000 ms),
and in that case `startTracking` takes the in-process local fallback
path. -/
theorem daemon_probe_fallback (env : ProbeEnv)
    (h : env.socketExists = false ∨ env.connectOk = false ∨
         env.statusReplyMs = none ∨
         ∃ t, env.statusReplyMs = some t ∧ probeTimeoutMs ≤ t) :
    isDaemonRunning env = false ∧
    startTrackingPath env = TrackPath.localFallback ∧
    probeTimeoutMs = 5000 := by
  have hrun : isDaemonRunning env = false := by
    rcases h with h1 | h1 | h1 | ⟨t, ht, htime⟩
    · simp [isDaemonRunning, h1]
    · simp [isDaemonRunning, h1]
    · simp [isDaemonRunning, h1]
    · have hnl : ¬ t < probeTimeoutMs := Nat.not_lt.mpr htime
      simp [isDaemonRunning, ht, hnl]
  exact ⟨hrun, by simp [startTrackingPath, hrun], rfl⟩

/-- Witness for C8: a probe whose status reply takes 6 seconds. -/
theorem daemon_probe_fallback_witness :
    isDaemonRunning
      { socketExists := true, connectOk := true, statusReplyMs := some 6000,
        statusOk := true } = false ∧
    startTrackingPath
      { socketExists := true, connectOk := true, statusReplyMs := some 6000,
        statusOk := true } = TrackPath.localFallback ∧
    probeTimeoutMs = 5000 :=
  daemon_probe_fallback
    { socketExists := true, connectOk := true, statusReplyMs := some 6000,
      statusOk := true }
    (Or.inr (Or.inr (Or.inr ⟨6000, rfl, by decide⟩)))

/-- Claim C9: the local `startTracking` stores `issueId = 0` when no issue
id is given, an explicit issue id 0 is indistinguishable from an absent
one, the status display hides a zero issue id, and every `syncTempo`
submission carries a nonzero issue id whenever the prompt supplies nonzero
ids — so 0 acts as the "missing" sentinel and is unrepresentable as a real
issue id. -/
theorem issue_id_zero_sentinel :
    (∀ (s : LocalState) (b d : String) (t : Nat) (descr : Option String),
       s.activeTracking = none →
       (startTracking s false b d t none descr).activeTracking.map
         (fun tr => tr.issueId) = some 0) ∧
    (∀ (s : LocalState) (ans : Bool) (b d : String) (t : Nat) (descr : Option String),
       startTracking s ans b d t (some 0) descr = startTracking s ans b d t none descr) ∧
    (∀ (s : LocalState) (tr : ActiveTracking),
       s.activeTracking = some tr → tr.issueId = 0 → statusIssueLine s = none) ∧
    (∀ (env : SyncEnv) (log : List ActivityLogEntry),
       (∀ i, env.promptIssueId i ≠ 0) →
       ∀ p ∈ (syncTempo env log).submitted, p.2 ≠ 0) := by
  refine ⟨?_, ?_, ?_, ?_⟩
  · intro s b d t descr h
    simp [startTracking, h, beginSession]
  · intro s ans b d t descr
    cases hat : s.activeTracking <;>
      simp [startTracking, hat, beginSession, stopTracking]
  · intro s tr h h0
    simp [statusIssueLine, h, h0]
  · intro env log hp p hmem
    rw [syncTempo_submitted] at hmem
    obtain ⟨a, ha, hpa⟩ := List.mem_map.mp hmem
    rw [← hpa]
    by_cases hi : a.issueId = 0
    · simpa [usedIssueId, hi] using hp a.id
    · simp [usedIssueId, hi]

/-- Witness for C9 at concrete states and a concrete sync run. -/
theorem issue_id_zero_sentinel_witness :
    (startTracking emptyLocalState false "main" "/repo" 3 none none).activeTracking.map
      (fun tr => tr.issueId) = some 0 ∧
    startTracking emptyLocalState true "m" "/r" 4 (some 0) none =
      startTracking emptyLocalState true "m" "/r" 4 none none ∧
    statusIssueLine busyState = none ∧
    (∀ p ∈ (syncTempo envOkOne sampleLog).submitted, p.2 ≠ 0) := by
  have h := issue_id_zero_sentinel
  exact ⟨h.1 emptyLocalState "main" "/repo" 3 none rfl,
    h.2.1 emptyLocalState true "m" "/r" 4 none,
    h.2.2.1 busyState
      { branch := "main", directory := "/repo", startTime := 100,
        issueId := 0, description := none } rfl rfl,
    h.2.2.2 envOkOne sampleLog (fun i => by simp [envOkOne])⟩

/-- Claim C10: a branch-poll firing with no active tracking session
performs no state mutation — the stored config and the activity log are
exactly as before — and only cancels its own polling interval. -/
theorem branch_poll_no_session (s : LocalState) (t : Nat) (br : Except Unit String)
    (h : s.activeTracking = none) :
    checkCurrentBranch s t br = { s with branchChecksActive := false } := by
  simp [checkCurrentBranch, h]

/-- Witness for C10 at a concrete idle state. -/
theorem branch_poll_no_session_witness :
    checkCurrentBranch emptyLocalState 7 (Except.ok "main") =
      { emptyLocalState with branchChecksActive := false } :=
  branch_poll_no_session emptyLocalState 7 (Except.ok "main") rfl

/-! Helper lemmas about segment tiling, for claim C1. -/

theorem tiles_append (e : ActivityLogEntry) (te : Nat) (he : e.endTime = some te) :
    ∀ (l : List ActivityLogEntry) (t : Nat), tilesFromB t l = true →
      e.startTime = lastEnd t l →
      tilesFromB t (l ++ [e]) = true ∧ lastEnd t (l ++ [e]) = te := by
  intro l
  induction l with
  | nil =>
    intro t ht hs
    have hs' : e.startTime = t := hs
    constructor
    · simp [tilesFromB, he, hs']
    · simp [lastEnd, he]
  | cons f l ih =>
    intro t ht hs
    cases hf : f.endTime with
    | none => rw [tilesFromB, hf] at ht; exact absurd ht (by simp)
    | some tf =>
      rw [tilesFromB, hf, Bool.and_eq_true, decide_eq_true_eq] at ht
      have hl : lastEnd t (f :: l) = lastEnd tf l := by simp [lastEnd, hf]
      rw [hl] at hs
      obtain ⟨h1, h2⟩ := ih tf ht.2 hs
      constructor
      · rw [List.cons_append, tilesFromB, hf, Bool.and_eq_true, decide_eq_true_eq]
        exact ⟨ht.1, h1⟩
      · rw [List.cons_append]
        have : lastEnd t ((f :: (l ++ [e]))) = lastEnd tf (l ++ [e]) := by
          simp [lastEnd, hf]
        rw [this, h2]

theorem tiles_head (l : List ActivityLogEntry) (t : Nat) (hne : l ≠ [])
    (ht : tilesFromB t l = true) :
    l.head?.map (fun e => e.startTime) = some t := by
  cases l with
  | nil => exact absurd rfl hne
  | cons e rest =>
    cases hf : e.endTime with
    | none => rw [tilesFromB, hf] at ht; exact absurd ht (by simp)
    | some te =>
      rw [tilesFromB, hf, Bool.and_eq_true, decide_eq_true_eq] at ht
      simp [ht.1]

theorem tiles_getLast :
    ∀ (l : List ActivityLogEntry) (t : Nat), l ≠ [] → tilesFromB t l = true →
      (l.getLast?.bind fun e => e.endTime) = some (lastEnd t l) := by
  intro l
  induction l with
  | nil => intro t h _; exact absurd rfl h
  | cons e rest ih =>
    intro t _ ht
    cases hf : e.endTime with
    | none => rw [tilesFromB, hf] at ht; exact absurd ht (by simp)
    | some te =>
      rw [tilesFromB, hf, Bool.and_eq_true, decide_eq_true_eq] at ht
      cases rest with
      | nil => simp [hf, lastEnd]
      | cons g rest2 =>
        have h2 := ih te (by simp) ht.2
        rw [List.getLast?_cons_cons, h2]
        have : lastEnd t (e :: g :: rest2) = lastEnd te (g :: rest2) := by
          simp [lastEnd, hf]
        rw [this]

theorem tiles_adjacent :
    ∀ (l : List ActivityLogEntry) (t : Nat) (i : Nat),
      tilesFromB t l = true → i + 1 < l.length →
      (l.getD i default).endTime = some ((l.getD (i + 1) default).startTime) := by
  intro l
  induction l with
  | nil => intro t i _ h; simp at h
  | cons e rest ih =>
    intro t i ht hlen
    cases hf : e.endTime with
    | none => rw [tilesFromB, hf] at ht; exact absurd ht (by simp)
    | some te =>
      rw [tilesFromB, hf, Bool.and_eq_true, decide_eq_true_eq] at ht
      cases i with
      | zero =>
        have hrest : 0 < rest.length := by
          simpa using hlen
        cases rest with
        | nil => simp at hrest
        | cons g rest2 =>
          cases hg : g.endTime with
          | none =>
            have := ht.2
            rw [tilesFromB, hg] at this
            exact absurd this (by simp)
          | some tg =>
            have h2 := ht.2
            rw [tilesFromB, hg, Bool.and_eq_true, decide_eq_true_eq] at h2
            simp [hf, h2.1]
      | succ j =>
        have h := ih te j ht.2 (by simpa using hlen)
        simpa using h

theorem tiles_chain_starts :
    ∀ (l : List ActivityLogEntry) (t : Nat),
      tilesFromB t l = true → l.all entrySpanOk = true →
      List.Chain' (fun x y => x ≤ y) (l.map (fun e => e.startTime)) := by
  intro l
  induction l with
  | nil => intro t _ _; simp
  | cons e rest ih =>
    intro t ht hok
    cases hf : e.endTime with
    | none => rw [tilesFromB, hf] at ht; exact absurd ht (by simp)
    | some te =>
      rw [tilesFromB, hf, Bool.and_eq_true, decide_eq_true_eq] at ht
      rw [List.all_cons, Bool.and_eq_true] at hok
      have hspan : e.startTime ≤ te := by
        have h := hok.1
        rw [entrySpanOk, hf] at h
        exact decide_eq_true_eq.mp h
      have hchain := ih te ht.2 hok.2
      cases rest with
      | nil => simp
      | cons g rest2 =>
        cases hg : g.endTime with
        | none =>
          have := ht.2
          rw [tilesFromB, hg] at this
          exact absurd this (by simp)
        | some tg =>
          have h2 := ht.2
          rw [tilesFromB, hg, Bool.and_eq_true, decide_eq_true_eq] at h2
          rw [List.map_cons, List.map_cons, List.chain'_cons]
          refine ⟨?_, ?_⟩
          · rw [h2.1]
            exact hspan
          · rw [List.map_cons] at hchain
            exact hchain

theorem chain_le_drop (a t : Nat) (l : List Nat)
    (h : List.Chain' (fun x y => x ≤ y) (a :: t :: l)) :
    List.Chain' (fun x y => x ≤ y) (a :: l) := by
  rw [List.chain'_cons] at h
  obtain ⟨hat, h2⟩ := h
  cases l with
  | nil => simp
  | cons b l2 =>
    rw [List.chain'_cons] at h2 ⊢
    exact ⟨le_trans hat h2.1, h2.2⟩

theorem runChecks_inv :
    ∀ (events : List (Nat × String)) (s : LocalState) (tr : ActiveTracking)
      (t0 tStop : Nat),
      s.activeTracking = some tr →
      tilesFromB t0 s.activityLog = true →
      tr.startTime = lastEnd t0 s.activityLog →
      s.activityLog.all entrySpanOk = true →
      List.Chain' (fun x y => x ≤ y)
        (tr.startTime :: (events.map Prod.fst ++ [tStop])) →
      ∃ tr2 : ActiveTracking,
        (runChecks s events).activeTracking = some tr2 ∧
        tilesFromB t0 (runChecks s events).activityLog = true ∧
        tr2.startTime = lastEnd t0 (runChecks s events).activityLog ∧
        (runChecks s events).activityLog.all entrySpanOk = true ∧
        tr2.startTime ≤ tStop := by
  intro events
  induction events with
  | nil =>
    intro s tr t0 tStop hat ht hs hok hchain
    refine ⟨tr, hat, ht, hs, hok, ?_⟩
    simp only [List.map_nil, List.nil_append] at hchain
    exact (List.chain'_cons.mp hchain).1
  | cons ev rest ih =>
    intro s tr t0 tStop hat ht hs hok hchain
    obtain ⟨t, b⟩ := ev
    simp only [List.map_cons, List.cons_append] at hchain
    have hat_le_t : tr.startTime ≤ t := (List.chain'_cons.mp hchain).1
    have hchain_tail := (List.chain'_cons.mp hchain).2
    have hrun : runChecks s ((t, b) :: rest) =
        runChecks (checkCurrentBranch s t (Except.ok b)) rest := rfl
    by_cases hb : b = tr.branch
    · have hcc : checkCurrentBranch s t (Except.ok b) = s := by
        simp [checkCurrentBranch, hat, hb]
      rw [hrun, hcc]
      exact ih s tr t0 tStop hat ht hs hok (chain_le_drop _ t _ hchain)
    · set e := closeSegment tr t s.activityLog.length with hedef
      have hcc : checkCurrentBranch s t (Except.ok b) =
          { s with activityLog := s.activityLog ++ [e],
                   activeTracking := some { tr with branch := b, startTime := t } } := by
        simp [checkCurrentBranch, hat, hb, hedef]
      have he : e.endTime = some t := rfl
      have hstart : e.startTime = lastEnd t0 s.activityLog := by
        rw [← hs]; rfl
      obtain ⟨h1, h2⟩ := tiles_append e t he s.activityLog t0 ht hstart
      have hok2 : (s.activityLog ++ [e]).all entrySpanOk = true := by
        rw [List.all_append]
        refine Bool.and_eq_true_iff.mpr ⟨hok, ?_⟩
        have hespan : entrySpanOk e = true := by
          rw [entrySpanOk, he, decide_eq_true_eq]
          exact hat_le_t
        simp [hespan]
      rw [hrun, hcc]
      exact ih _ { tr with branch := b, startTime := t } t0 tStop rfl h1 h2.symm hok2
        hchain_tail

/-- Claim C1: for a one-directory run of `startTracking` at `t0`, any
branch-poll observations at nondecreasing times, then `stopTracking` at
`tStop`, the produced activity-log entries are nonempty, each entry's
`endTime` is the next entry's `startTime`, the first entry starts at `t0`,
the last entry ends at `tStop`, and the list is ordered by `startTime`. -/
theorem segment_tiling (dir b0 : String) (issueId : Option Nat)
    (descr : Option String) (t0 : Nat) (events : List (Nat × String)) (tStop : Nat)
    (hchain : List.Chain' (fun x y => x ≤ y)
      (t0 :: (events.map Prod.fst ++ [tStop]))) :
    lifecycleEntries dir b0 issueId descr t0 events tStop ≠ [] ∧
    (∀ i, i + 1 < (lifecycleEntries dir b0 issueId descr t0 events tStop).length →
      ((lifecycleEntries dir b0 issueId descr t0 events tStop).getD i default).endTime =
        some (((lifecycleEntries dir b0 issueId descr t0 events tStop).getD (i + 1)
          default).startTime)) ∧
    (lifecycleEntries dir b0 issueId descr t0 events tStop).head?.map
      (fun e => e.startTime) = some t0 ∧
    ((lifecycleEntries dir b0 issueId descr t0 events tStop).getLast?.bind
      fun e => e.endTime) = some tStop ∧
    List.Pairwise (fun e1 e2 => e1.startTime ≤ e2.startTime)
      (lifecycleEntries dir b0 issueId descr t0 events tStop) := by
  have hat0 : (startTracking emptyLocalState false b0 dir t0 issueId descr).activeTracking
      = some { branch := b0, directory := dir, startTime := t0,
               issueId := issueId.getD 0, description := descr } := rfl
  obtain ⟨tr2, hat2, ht2, hs2, hok2, hle2⟩ :=
    runChecks_inv events (startTracking emptyLocalState false b0 dir t0 issueId descr)
      _ t0 tStop hat0 rfl rfl rfl hchain
  set s1 := runChecks (startTracking emptyLocalState false b0 dir t0 issueId descr) events
    with hs1def
  set efin := closeSegment tr2 tStop s1.activityLog.length with hefindef
  have hefin : efin.endTime = some tStop := rfl
  have hstart : efin.startTime = lastEnd t0 s1.activityLog := by
    rw [← hs2]; rfl
  obtain ⟨hT, hL⟩ := tiles_append efin tStop hefin s1.activityLog t0 ht2 hstart
  have hentries : lifecycleEntries dir b0 issueId descr t0 events tStop =
      s1.activityLog ++ [efin] := by
    rw [lifecycleEntries]
    rw [← hs1def]
    simp [stopTracking, hat2, hefindef]
  have hne : s1.activityLog ++ [efin] ≠ [] := by simp
  have hall : (s1.activityLog ++ [efin]).all entrySpanOk = true := by
    rw [List.all_append]
    refine Bool.and_eq_true_iff.mpr ⟨hok2, ?_⟩
    have hespan : entrySpanOk efin = true := by
      rw [entrySpanOk, hefin, decide_eq_true_eq]
      exact hle2
    simp [hespan]
  rw [hentries]
  refine ⟨hne, ?_, ?_, ?_, ?_⟩
  · intro i hi
    exact tiles_adjacent (s1.activityLog ++ [efin]) t0 i hT hi
  · exact tiles_head (s1.activityLog ++ [efin]) t0 hne hT
  · rw [tiles_getLast (s1.activityLog ++ [efin]) t0 hne hT, hL]
  · have hch := tiles_chain_starts (s1.activityLog ++ [efin]) t0 hT hall
    have hpw := List.chain'_iff_pairwise.mp hch
    rw [List.pairwise_map] at hpw
    exact hpw

/-- Witness for C1: the spec's own scenario — start on `feature/x` at 0,
branch change to `main` observed at 10, stop at 25. -/
theorem segment_tiling_witness :
    lifecycleEntries "/repo" "feature/x" none none 0 [(10, "main")] 25 ≠ [] ∧
    (∀ i, i + 1 < (lifecycleEntries "/repo" "feature/x" none none 0
        [(10, "main")] 25).length →
      ((lifecycleEntries "/repo" "feature/x" none none 0
        [(10, "main")] 25).getD i default).endTime =
        some (((lifecycleEntries "/repo" "feature/x" none none 0
          [(10, "main")] 25).getD (i + 1) default).startTime)) ∧
    (lifecycleEntries "/repo" "feature/x" none none 0 [(10, "main")] 25).head?.map
      (fun e => e.startTime) = some 0 ∧
    ((lifecycleEntries "/repo" "feature/x" none none 0 [(10, "main")] 25).getLast?.bind
      fun e => e.endTime) = some 25 ∧
    List.Pairwise (fun e1 e2 => e1.startTime ≤ e2.startTime)
      (lifecycleEntries "/repo" "feature/x" none none 0 [(10, "main")] 25) :=
  segment_tiling "/repo" "feature/x" none none 0 [(10, "main")] 25 (by
    show List.Chain' (fun x y => x ≤ y) [0, 10, 25]
    rw [List.chain'_cons, List.chain'_cons]
    exact ⟨by omega, by omega, List.chain'_singleton 25⟩)

end Tempo
